import Mathlib

/-!
# Verification of the sample_buddy_ai feature-vector / batch-classification core

This file shallowly embeds the core of the `sample_buddy_ai` repository
(`electron-audio-manager/python/find_similar_samples.py`,
`electron-audio-manager/python/quick_classifier.py`,
`electron-audio-manager/python/deep_classifier.py` and
`electron-audio-manager/trash/deep_classifier.py`) in Lean and settles the
specification claims about it.

Modelling conventions:
* Python floats are modelled exactly: rational inputs as `ℚ`, values produced
  by `numpy` (square roots, divisions) as `ℝ`.  A float `nan` produced by a
  `0/0` division is modelled as `Option.none`.
* A Python feature dictionary is an association list `FeatDict`; absence of a
  key is `Option.none` under lookup, mirroring `key in dict` tests.
* File-system / audio-IO effects are abstracted into explicit inputs: the
  loaded JSON features of each sample, and an `extract` oracle standing for
  `extract_audio_features` (whose uncaught exceptions are `Except.error`).
* Thread-pool execution (`ThreadPoolExecutor` + `as_completed`) is linearised
  in submission order; the claims proved below (counts, error records,
  progress accounting) are invariant under the completion order, and the
  per-batch fan-in barrier of the source is kept (batches run sequentially).
-/

set_option maxHeartbeats 1000000

/-! ## Small Python-semantics helpers -/

/-- The Python substring test `needle in hay` (for `str`). -/
def pyIn (needle hay : String) : Bool :=
  decide (needle.toList <:+: hay.toList)

/-- The Python `str.lower()` (ASCII case, which is all the source uses). -/
def strLower (s : String) : String :=
  ⟨s.toList.map Char.toLower⟩

/-- The Python `os.path.basename` (with `/` as separator): the suffix after
the last slash. -/
def basename (path : String) : String :=
  ⟨(path.toList.reverse.takeWhile (fun c => c != '/')).reverse⟩

/-- The stem part of `os.path.splitext`: everything before the last dot
(`"a.b.wav" ↦ "a.b"`, no dot leaves the name unchanged). -/
def splitextStem (name : String) : String :=
  let cs := name.toList
  if cs.contains '.' then ⟨((cs.reverse.dropWhile (fun c => c != '.')).drop 1).reverse⟩
  else name

/-- A JSON-ish value stored in a Python feature dictionary: the source only
inspects numbers (`isinstance(v, (int, float))`), lists of numbers (`mfcc`),
and strings (`category`, `mood`, `extraction_method`). -/
inductive PyVal where
  | num : ℚ → PyVal
  | list : List ℚ → PyVal
  | str : String → PyVal
deriving DecidableEq, Repr

/-- A Python dictionary of features, as an association list in insertion
order. -/
abbrev FeatDict := List (String × PyVal)

/-- Dictionary lookup: `d[k]` / `k in d`. -/
def dictGet (d : FeatDict) (k : String) : Option PyVal :=
  (d.find? (fun p => p.1 == k)).map (·.2)

/-- Lookup `d.get(k, default)` for a key whose stored value is numeric. -/
def getNum (d : FeatDict) (k : String) (dflt : ℚ) : ℚ :=
  match dictGet d k with
  | some (.num x) => x
  | _ => dflt

/-- Lookup `d.get(k, default)` for a key whose stored value is a string. -/
def getStr (d : FeatDict) (k : String) (dflt : String) : String :=
  match dictGet d k with
  | some (.str s) => s
  | _ => dflt

/-! ## `find_similar_samples.py`: `create_feature_vector`

Source (lines 45–86): six scalar keys are appended (defaulting to `0.0` when
missing or non-numeric), then `features['mfcc'][:10]` is appended when `mfcc`
is present and a list, then the vector is divided by its Euclidean norm when
that norm is positive. -/

/-- The `feature_keys` list of `create_feature_vector`. -/
def feature_keys : List String :=
  ["spectral_centroid", "spectral_bandwidth", "spectral_rolloff",
   "zero_crossing_rate", "energy", "tempo"]

/-- The scalar part of the vector: one entry per key of `feature_keys`,
the stored number when present and numeric, else `0.0`. -/
def scalarPart (d : FeatDict) : List ℚ :=
  feature_keys.map (fun k =>
    match dictGet d k with
    | some (.num x) => x
    | _ => 0)

/-- The MFCC part: `features['mfcc'][:10]` when `mfcc` is present and a list,
else nothing (the source never pads). -/
def mfccPart (d : FeatDict) : List ℚ :=
  match dictGet d "mfcc" with
  | some (.list l) => l.take 10
  | _ => []

/-- Length of the stored `mfcc` list (`0` when absent or not a list). -/
def mfccLen (d : FeatDict) : ℕ :=
  match dictGet d "mfcc" with
  | some (.list l) => l.length
  | _ => 0

/-- The raw (pre-normalisation) feature vector `vector` of
`create_feature_vector`. -/
def buildVector (d : FeatDict) : List ℚ :=
  scalarPart d ++ mfccPart d

/-- Dot product `np.dot` on float vectors (`numpy` pairs entries positionally). -/
def rdot (a b : List ℝ) : ℝ :=
  ((a.zip b).map (fun p => p.1 * p.2)).sum

/-- Squared Euclidean norm of a float vector. -/
def rnormSq (a : List ℝ) : ℝ := rdot a a

/-- Norm `np.linalg.norm`: the Euclidean norm. -/
noncomputable def rnorm (a : List ℝ) : ℝ := Real.sqrt (rnormSq a)

/-- The normalisation step of `create_feature_vector`:
`if norm > 0: feature_vector = feature_vector / norm`. -/
noncomputable def normalizeVec (w : List ℝ) : List ℝ :=
  if 0 < rnorm w then w.map (fun x => x / rnorm w) else w

/-- Model of `create_feature_vector(features)`: build the raw vector, convert to a
float array, and normalise when the norm is positive. -/
noncomputable def create_feature_vector (d : FeatDict) : List ℝ :=
  normalizeVec ((buildVector d).map (fun x : ℚ => (x : ℝ)))

/-! ## `find_similar_samples.py`: similarity score and ranking

The score is `1 - scipy.spatial.distance.cosine(a, b)`.  `scipy` computes the
cosine distance as `1 - dot(a,b)/sqrt(dot(a,a)*dot(b,b))` (clipped to `[0,2]`,
an identity in exact arithmetic): when either vector has zero norm the float
division is `0/0`, which yields `nan` — there is no zero guard in the source.
A `nan` score is modelled as `none`; note that in Python `nan > 0` is `False`, so
the positivity filter below drops such candidates. -/

/-- The score `1 - scipy.spatial.distance.cosine(a, b)` in exact arithmetic; `none`
models the `nan` produced by the `0/0` division when either norm is zero. -/
noncomputable def scipy_cosine_sim (a b : List ℝ) : Option ℝ :=
  if rnormSq a * rnormSq b = 0 then none
  else some (rdot a b / (Real.sqrt (rnormSq a) * Real.sqrt (rnormSq b)))

/-- One candidate file of the samples directory together with the features
loaded from its sidecar JSON (`none` when no feature file exists or loading
failed, in which case the source skips the candidate). -/
structure SampleFile where
  path : String
  features : Option FeatDict

/-- One entry of the `similarity_scores` list built by
`find_similar_samples`. -/
structure SimilarEntry where
  path : String
  name : String
  similarity : ℝ
  category : String
  mood : String

/-- The descending comparison used by
`similarity_scores.sort(key=lambda x: x['similarity'], reverse=True)`. -/
def simGE (a b : SimilarEntry) : Prop :=
  b.similarity ≤ a.similarity

noncomputable instance : DecidableRel simGE :=
  fun a b => Real.decidableLE b.similarity a.similarity

instance : IsTotal SimilarEntry simGE :=
  ⟨fun a b => le_total b.similarity a.similarity⟩

instance : IsTrans SimilarEntry simGE :=
  ⟨fun _ _ _ h₁ h₂ => le_trans h₂ h₁⟩

/-- The loop body of `find_similar_samples` for one candidate: skip the
reference itself, skip candidates without features, score the rest and keep
them only when the similarity is strictly positive. -/
noncomputable def scoreOne (reference_path : String) (reference_vector : List ℝ)
    (s : SampleFile) : Option SimilarEntry :=
  if s.path = reference_path then none
  else
    match s.features with
    | none => none
    | some f =>
      match scipy_cosine_sim reference_vector (create_feature_vector f) with
      | none => none
      | some v =>
        if 0 < v then
          some ⟨s.path, basename s.path, v, getStr f "category" "Unknown",
                getStr f "mood" "Unknown"⟩
        else none

/-- The `similarity_scores` list, in candidate enumeration order. -/
noncomputable def candidateScores (reference_path : String) (rf : FeatDict)
    (sample_files : List SampleFile) : List SimilarEntry :=
  sample_files.filterMap (scoreOne reference_path (create_feature_vector rf))

/-- Model of `find_similar_samples(reference, samples_dir, max_results)`: score each
candidate, stable-sort descending by similarity, truncate to `max_results`.
(The Python `list.sort` is stable also with `reverse=True`; on a total preorder
every stable sort produces the same list, so `List.insertionSort` — Mathlib's
stable sort — computes exactly the source's ordering.) -/
noncomputable def find_similar_samples (reference_path : String)
    (reference_features : Option FeatDict) (sample_files : List SampleFile)
    (max_results : ℕ) : List SimilarEntry :=
  match reference_features with
  | none => []
  | some rf =>
    (List.insertionSort simGE (candidateScores reference_path rf sample_files)).take
      max_results

/-! ## `quick_classifier.py` / `deep_classifier.py`: `classify_by_filename`

The keyword tables are Python dicts; since Python 3.7 dicts iterate in
insertion order, so they are modelled as ordered association lists and the
`for ... break` loops as `List.find?`. -/

/-- Table `CATEGORY_KEYWORDS` (identical in both classifier variants). -/
def CATEGORY_KEYWORDS : List (String × List String) :=
  [("kick", ["kick", "bass drum", "bd", "808"]),
   ("snare", ["snare", "sd", "rim"]),
   ("hi_hat_cymbal", ["hat", "hh", "hi-hat", "hihat", "cymbal", "crash", "ride"]),
   ("tom", ["tom", "floor", "rack"]),
   ("clap", ["clap", "handclap"]),
   ("other_percussion", ["perc", "drum", "percussion", "shaker", "tambourine", "conga", "bongo"]),
   ("bass", ["bass", "sub", "808 bass", "bassline", "bass line"]),
   ("synth_lead", ["lead", "synth lead", "lead synth", "melody", "arp", "pluck", "saw lead"]),
   ("synth_pad", ["pad", "synth pad", "atmosphere", "ambient", "texture", "drone"]),
   ("piano_keys", ["piano", "keys", "keyboard", "rhodes", "wurlitzer", "organ", "epiano", "e-piano"]),
   ("strings", ["strings", "violin", "viola", "cello", "orchestral", "orchestra"]),
   ("brass", ["brass", "trumpet", "trombone", "horn", "sax", "saxophone"]),
   ("guitar", ["guitar", "gtr", "acoustic guitar", "electric guitar"]),
   ("vocal", ["vocal", "vox", "voice", "acapella", "sing", "choir", "adlib"]),
   ("fx", ["fx", "effect", "riser", "downlifter", "impact", "whoosh", "transition", "foley"])]

/-- Table `MAIN_CATEGORIES`. -/
def MAIN_CATEGORIES : List (String × List String) :=
  [("percussion", ["kick", "snare", "hi_hat_cymbal", "tom", "clap", "other_percussion"]),
   ("bass", ["bass"]),
   ("lead", ["synth_lead", "piano_keys"]),
   ("pad", ["synth_pad", "strings", "brass"]),
   ("guitar", ["guitar"]),
   ("vocal", ["vocal"]),
   ("fx", ["fx"])]

/-- Table `MOOD_KEYWORDS`. -/
def MOOD_KEYWORDS : List (String × List String) :=
  [("dark", ["dark", "minor", "sad", "moody", "melancholy", "scary", "horror", "tense"]),
   ("bright", ["bright", "major", "happy", "uplifting", "cheerful", "light"]),
   ("energetic", ["energetic", "energy", "powerful", "driving", "hard", "aggressive"]),
   ("chill", ["chill", "calm", "relaxed", "soft", "gentle", "mellow", "ambient"]),
   ("epic", ["epic", "cinematic", "movie", "trailer", "dramatic"])]

/-- The `{'type', 'subtype', 'mood'}` classification dictionary. -/
structure Classification where
  type : String
  subtype : String
  mood : String
deriving DecidableEq, Repr

/-- Model of `classify_by_filename(file_path)`: lowercase the basename, take the first
subtype whose keyword list has a substring match (else `"other"`), map it to
a main type through `MAIN_CATEGORIES` (else `"other"`), and take the first
matching mood keyword group (else `"neutral"`). -/
def classify_by_filename (file_path : String) : Classification :=
  let filename := strLower (basename file_path)
  let subtype :=
    ((CATEGORY_KEYWORDS.find? (fun p => p.2.any (fun kw => pyIn kw filename))).map
      (·.1)).getD "other"
  let type :=
    ((MAIN_CATEGORIES.find? (fun p => p.2.contains subtype)).map (·.1)).getD "other"
  let mood :=
    ((MOOD_KEYWORDS.find? (fun p => p.2.any (fun kw => pyIn kw filename))).map
      (·.1)).getD "neutral"
  ⟨type, subtype, mood⟩

/-! ## `trash/deep_classifier.py`: `determine_mood_from_features`

The numeric `energy_value`/`brightness_value`/`texture_value` fields stored in
the returned dict are rounded presentation copies that nothing downstream
reads; the comparisons below use the unrounded values exactly as the source
does, and only the qualitative bins and `overall_mood` are kept. -/

/-- The mood dictionary returned by `determine_mood_from_features`. -/
structure MoodDetails where
  energy : String
  brightness : String
  texture : String
  overall_mood : List String
deriving DecidableEq, Repr

/-- Model of `determine_mood_from_features(features)` of `trash/deep_classifier.py`. -/
def determine_mood_from_features (features : FeatDict) : MoodDetails :=
  if features = [] then ⟨"neutral", "neutral", "neutral", ["neutral"]⟩
  else
    let is_fallback := dictGet features "extraction_method" = some (.str "basic_fallback")
    let energy_value :=
      if is_fallback then getNum features "energy" (1/2) * 10
      else getNum features "energy_mean" 0 * 5 + getNum features "onset_rate" 0 * (1/2)
    let brightness_value :=
      if is_fallback then getNum features "brightness" (1/2) * 10
      else getNum features "avg_centroid" 0 / 1000 + getNum features "avg_rolloff" 0 / 5000
    let texture_value :=
      if is_fallback then getNum features "roughness" (3/10) * (-100)
      else -1 * getNum features "avg_contrast" 0 - getNum features "avg_flatness" 0 * 100
    let energy :=
      if energy_value < 2 then "chill" else if energy_value < 5 then "moderate" else "energetic"
    let brightness :=
      if brightness_value < 3 then "dark" else if brightness_value < 7 then "warm" else "bright"
    let texture := if texture_value < -60 then "rough" else "smooth"
    let mood_list :=
      (if energy = "chill" then ["chill"] else []) ++
      (if brightness = "dark" then
        ["dark"] ++ (if energy = "chill" then ["sad"] else [])
       else if brightness = "bright" then
        ["bright"] ++ (if energy = "energetic" then ["happy"] else [])
       else []) ++
      (if energy = "energetic" ∧ texture = "rough" then ["aggressive"] else [])
    let overall := if mood_list = [] then ["neutral"] else mood_list
    ⟨energy, brightness, texture, overall⟩

/-! ## `trash/deep_classifier.py`: `process_single_file` and `process_files` -/

/-- The per-sample metadata dictionary built by `process_single_file`
(the float timing fields and the optional `output_dir` copying, which are
pure IO, are outside the embedding). -/
structure Sample where
  id : String
  name : String
  path : String
  category : String
  subtype : String
  mood : String
  batch : ℕ
deriving DecidableEq, Repr

/-- The failure record returned by `process_single_file`'s `except` branch
(`success: False` plus these fields). -/
structure ErrorRecord where
  file_path : String
  error : String
  batch : ℕ
  file_num : ℕ
deriving DecidableEq, Repr

/-- Result of one `process_single_file` call. -/
inductive FileResult where
  | success : Sample → FileResult
  | failure : ErrorRecord → FileResult
deriving DecidableEq, Repr

/-- The sample id: stem of the file name, spaces to underscores, lowercased, behind a fixed tag. -/
def sample_id (file_name : String) : String :=
  "sample_" ++
    strLower ⟨(splitextStem file_name).toList.map (fun c => if c = ' ' then '_' else c)⟩

/-- Model of `process_single_file(file_path, output_dir=None, deep_analysis, batch_num,
file_num)`.  `extract` stands for `extract_audio_features`; an `Except.error`
models an exception escaping from inside the `try` body, which the `except`
branch converts into a failure record carrying the path, batch number and
1-based index within the batch.  When extraction yields a truthy (non-empty)
dict, the computed `overall_mood[0]` overwrites the filename-derived mood. -/
def process_single_file (extract : String → Except String FeatDict)
    (deep_analysis : Bool) (file_path : String) (batch_num file_num : ℕ) :
    FileResult :=
  let file_name := basename file_path
  let classification := classify_by_filename file_path
  match (if deep_analysis then (extract file_path).map some else .ok none) with
  | .error e => .failure ⟨file_path, e, batch_num, file_num⟩
  | .ok ofeats =>
    let classification :=
      match ofeats with
      | some features =>
        if features ≠ [] then
          let mood_from_features := determine_mood_from_features features
          if mood_from_features.overall_mood ≠ [] then
            { classification with mood := mood_from_features.overall_mood.headI }
          else classification
        else classification
      | none => classification
    .success ⟨sample_id file_name, file_name, file_path, classification.type,
              classification.subtype, classification.mood, batch_num⟩

/-- The mood field of a per-file result (`none` for a failure record). -/
def resultMood : FileResult → Option String
  | .success s => some s.mood
  | .failure _ => none

/-- Mutable accumulation state of the `process_files` loop: the growing
`samples` and `errors` lists and the `processed_files` / `failed_files`
counters. -/
structure RunState where
  samples : List Sample
  errors : List ErrorRecord
  processed : ℕ
  failed : ℕ
deriving DecidableEq, Repr

/-- Folding one completed future's result into the run state, as the
`as_completed` loop does. -/
def stepResult (st : RunState) (r : FileResult) : RunState :=
  match r with
  | .success s => { st with samples := st.samples ++ [s] }
  | .failure e => { st with errors := st.errors ++ [e], failed := st.failed + 1 }

/-- Is a per-file result a failure (`not r.get("success", False)`)? -/
def isFailure : FileResult → Bool
  | .success _ => false
  | .failure _ => true

/-- The per-file results of one batch, in submission order
(`enumerate(batch_files)` with `file_num = i+1`); `i` is the next 1-based
index. -/
def batchResults (extract : String → Except String FeatDict) (deep : Bool)
    (batch_num : ℕ) : ℕ → List String → List FileResult
  | _, [] => []
  | i, fp :: rest =>
    process_single_file extract deep fp batch_num i ::
      batchResults extract deep batch_num (i + 1) rest

/-- One iteration of the batch loop: run the batch's files, fold the results
into the state, and add `processed_in_batch = len(batch_files) - failures`
to the `processed_files` counter. -/
def processBatch (extract : String → Except String FeatDict) (deep : Bool)
    (batch_files : List String) (batch_num : ℕ) (st : RunState) : RunState :=
  let rs := batchResults extract deep batch_num 1 batch_files
  let st1 := rs.foldl stepResult st
  { st1 with processed := st1.processed + (batch_files.length - rs.countP isFailure) }

/-- Normalise one Python slice index: negative indices count from the end,
then the index is clamped to `[0, n]`. -/
def pySliceIdx (n : ℕ) (i : ℤ) : ℕ :=
  if i < 0 then min (i + n).toNat n else min i.toNat n

/-- The Python slice `l[a:b]` (step 1). -/
def pySlice {α : Type _} (l : List α) (a b : ℤ) : List α :=
  let i := pySliceIdx l.length a
  let j := pySliceIdx l.length b
  (l.drop i).take (j - i)

/-- The `results["stats"]` dictionary (float timing fields omitted).
`num_batches` is only added by the final stats update, hence `Option`. -/
structure Stats where
  total_files : ℕ
  processed_files : ℕ
  failed_files : ℕ
  batch_size : ℤ
  max_workers : ℤ
  num_batches : Option ℤ
deriving DecidableEq, Repr

/-- The aggregate dictionary returned by `process_files`. -/
structure BatchResult where
  success : Bool
  samples : List Sample
  errors : List ErrorRecord
  stats : Stats
deriving DecidableEq, Repr

/-- Model of `process_files(input_files, output_dir=None, deep_analysis, batch_size,
max_workers)` of `trash/deep_classifier.py`.  `Except.error` models an
uncaught exception escaping `process_files` itself: `batch_size = 0` hits
`ZeroDivisionError` at the `num_batches` computation (only reached when
`input_files` is non-empty, because of the early return), and a non-positive
`max_workers` hits `ValueError` when the first batch constructs its
`ThreadPoolExecutor`.  There is no up-front configuration validation. -/
def process_files (extract : String → Except String FeatDict) (deep : Bool)
    (input_files : List String) (batch_size max_workers : ℤ) :
    Except String BatchResult :=
  let init_stats : Stats :=
    ⟨input_files.length, 0, 0, batch_size, max_workers, none⟩
  if input_files.isEmpty then .ok ⟨true, [], [], init_stats⟩
  else if batch_size = 0 then
    .error "ZeroDivisionError: integer division or modulo by zero"
  else
    let total : ℕ := input_files.length
    let num_batches : ℤ := ((total : ℤ) + batch_size - 1).fdiv batch_size
    if 1 ≤ num_batches ∧ max_workers ≤ 0 then
      .error "ValueError: max_workers must be greater than 0"
    else
      let final :=
        (List.range num_batches.toNat).foldl
          (fun st (k : ℕ) =>
            processBatch extract deep
              (pySlice input_files ((k : ℤ) * batch_size)
                (min ((k : ℤ) * batch_size + batch_size) (total : ℤ)))
              (k + 1) st)
          ⟨[], [], 0, 0⟩
      .ok ⟨true, final.samples, final.errors,
           ⟨total, final.processed, final.failed, batch_size, max_workers,
            some num_batches⟩⟩

/-- The list of batch slices the loop of `process_files` iterates over
(`input_files[batch_num*batch_size : min(batch_num*batch_size+batch_size,
total_files)]` for each `batch_num in range(num_batches)`). -/
def batchSlices (l : List String) (batch_size : ℤ) : List (List String) :=
  (List.range ((((l.length : ℤ) + batch_size - 1).fdiv batch_size).toNat)).map
    (fun (k : ℕ) =>
      pySlice l ((k : ℤ) * batch_size)
        (min ((k : ℤ) * batch_size + batch_size) (l.length : ℤ)))

/-- Recursive restatement of the batch loop (first batch = `take B`, rest =
`drop B`), used to reason about `process_files` by induction. -/
def runBatchesRec (extract : String → Except String FeatDict) (deep : Bool)
    (B : ℕ) : ℕ → ℕ → List String → RunState → RunState
  | 0, _, _, st => st
  | m + 1, bn, l, st =>
    runBatchesRec extract deep B m (bn + 1) (l.drop B)
      (processBatch extract deep (l.take B) bn st)

/-! ## `trash/deep_classifier.py`: `_update_progress`

The global `_progress_data` dictionary is guarded by `_progress_lock`; with
the lock each call is atomic, so a run is a sequence of `_update_progress`
calls applied in some order and the shared state is a fold over that
sequence. -/

/-- The argument tuple of one `_update_progress(increment, batch_num,
message, error)` call (Python defaults: `0, None, None, None`). -/
structure UpdateArgs where
  increment : ℤ
  batch_num : Option ℕ
  message : Option String
  error : Option String
deriving DecidableEq, Repr

/-- The global `_progress_data` dictionary. -/
structure ProgressData where
  total_files : ℕ
  processed_files : ℕ
  current_batch : ℕ
  total_batches : ℕ
  batch_progress : ℚ
  overall_progress : ℚ
  status_message : String
  errors : List String
deriving DecidableEq, Repr

/-- Model of `_update_progress`: add `increment` to `processed_files` only when it is
positive, update batch/message/errors when given, then recompute the derived
percentages (guarded against zero denominators). -/
def _update_progress (u : UpdateArgs) (d : ProgressData) : ProgressData :=
  let d1 : ProgressData := if 0 < u.increment
    then { d with processed_files := d.processed_files + u.increment.toNat } else d
  let d2 : ProgressData := match u.batch_num with
    | some b => { d1 with current_batch := b }
    | none => d1
  let d3 : ProgressData := match u.message with
    | some m => { d2 with status_message := m }
    | none => d2
  let d4 : ProgressData := match u.error with
    | some e => { d3 with errors := d3.errors ++ [e] }
    | none => d3
  let d5 : ProgressData := if 0 < d4.total_files
    then { d4 with overall_progress := (d4.processed_files : ℚ) / (d4.total_files : ℚ) * 100 }
    else d4
  let d6 : ProgressData := if 0 < d5.total_batches
    then { d5 with batch_progress := (d5.current_batch : ℚ) / (d5.total_batches : ℚ) * 100 }
    else d5
  d6

/-- Applying a sequence of `_update_progress` calls in order. -/
def applyProgressUpdates (us : List UpdateArgs) (d : ProgressData) : ProgressData :=
  us.foldl (fun d u => _update_progress u d) d

/-- The `_update_progress` calls one `process_single_file(file_path, ...,
deep_analysis, ...)` invocation makes, in program order: a status message,
then (when deep analysis runs) an extraction message, and finally exactly one
`increment=1` call — from the end of the `try` body on success, or from the
`except` branch (together with the error message) on failure. -/
def fileProgressUpdates (extract : String → Except String FeatDict)
    (deep_analysis : Bool) (file_path : String) : List UpdateArgs :=
  let file_name := basename file_path
  let msg1 : UpdateArgs := ⟨0, none, some ("Processing file: " ++ file_name), none⟩
  if deep_analysis then
    let msg2 : UpdateArgs :=
      ⟨0, none, some ("Extracting features from " ++ file_name), none⟩
    match extract file_path with
    | .ok _ => [msg1, msg2, ⟨1, none, none, none⟩]
    | .error e =>
      [msg1, msg2,
       ⟨1, none, none, some ("Error processing " ++ file_name ++ ": " ++ e)⟩]
  else [msg1, ⟨1, none, none, none⟩]


/-! ## Concrete fixtures used by the theorems below -/

/-- The failure record of a per-file result, when it is one. -/
def errOf : FileResult → Option ErrorRecord
  | .failure e => some e
  | .success _ => none

/-- A feature record with all six scalar keys but only three MFCC values. -/
def mfcc3Record : FeatDict :=
  [("spectral_centroid", .num 1), ("spectral_bandwidth", .num 2),
   ("spectral_rolloff", .num 3), ("zero_crossing_rate", .num (1/2)),
   ("energy", .num 1), ("tempo", .num 120), ("mfcc", .list [1, 2, 3])]

/-- A fallback-style feature dict whose computed mood is `"bright"`. -/
def fallbackBrightFeatures : FeatDict :=
  [("extraction_method", .str "basic_fallback"), ("energy", .num (9/10)),
   ("brightness", .num (9/10)), ("roughness", .num (3/10))]

/-- An extraction oracle that always succeeds with `fallbackBrightFeatures`. -/
def extractBright : String → Except String FeatDict :=
  fun _ => .ok fallbackBrightFeatures

/-- An extraction oracle that always succeeds with an empty feature dict. -/
def extractEmpty : String → Except String FeatDict := fun _ => .ok []

/-- An extraction oracle that always raises. -/
def extractFailAll : String → Except String FeatDict := fun _ => .error "decode error"

/-- An extraction oracle that raises exactly on `"f3.wav"`. -/
def extractFailF3 : String → Except String FeatDict :=
  fun fp => if fp = "f3.wav" then .error "boom" else .ok []

/-- The five-file batch run of the C3 scenario. -/
def files5 : List String := ["f1.wav", "f2.wav", "f3.wav", "f4.wav", "f5.wav"]

/-- The reference feature dict of the C5 witness run. -/
def refDictW : FeatDict := [("energy", .num 1)]

/-- The candidate files of the C5 witness run. -/
def sampleFilesW : List SampleFile :=
  [⟨"a.wav", some [("energy", .num 1)]⟩, ⟨"b.wav", none⟩]

/-! # Theorems -/

/-! ## Feature-vector lemmas (C1, C10) -/

theorem normalizeVec_length (w : List ℝ) : (normalizeVec w).length = w.length := by
  unfold normalizeVec
  split <;> simp

theorem create_feature_vector_length_aux (d : FeatDict) :
    (create_feature_vector d).length = 6 + min 10 (mfccLen d) := by
  have hscal : (scalarPart d).length = 6 := by
    simp [scalarPart, feature_keys]
  have hmfcc : (mfccPart d).length = min 10 (mfccLen d) := by
    unfold mfccPart mfccLen
    rcases h : dictGet d "mfcc" with _ | v
    · simp
    · rcases v with x | l | s <;> simp
  have h1 : (create_feature_vector d).length = (buildVector d).length := by
    rw [create_feature_vector, normalizeVec_length]
    exact List.length_map _ _
  rw [h1, buildVector, List.length_append, hscal, hmfcc]

theorem rdot_nil (b : List ℝ) : rdot [] b = 0 := by simp [rdot]

theorem rdot_cons (x y : ℝ) (a b : List ℝ) :
    rdot (x :: a) (y :: b) = x * y + rdot a b := by
  simp [rdot]

theorem rnormSq_nil : rnormSq ([] : List ℝ) = 0 := by simp [rnormSq, rdot]

theorem rnormSq_cons (x : ℝ) (a : List ℝ) :
    rnormSq (x :: a) = x * x + rnormSq a := by
  simp [rnormSq, rdot_cons]

theorem rnormSq_nonneg (a : List ℝ) : 0 ≤ rnormSq a := by
  induction a with
  | nil => simp [rnormSq_nil]
  | cons x a ih =>
    rw [rnormSq_cons]
    exact add_nonneg (mul_self_nonneg x) ih

theorem rnormSq_map_div (a : List ℝ) (n : ℝ) :
    rnormSq (a.map (fun x => x / n)) = rnormSq a / (n * n) := by
  induction a with
  | nil => simp [rnormSq_nil]
  | cons x a ih =>
    simp only [List.map_cons, rnormSq_cons, ih, div_mul_div_comm, add_div]

theorem rnormSq_eq_zero_iff (a : List ℝ) : rnormSq a = 0 ↔ ∀ x ∈ a, x = 0 := by
  induction a with
  | nil => simp [rnormSq_nil]
  | cons x a ih =>
    rw [rnormSq_cons]
    rw [add_eq_zero_iff_of_nonneg (mul_self_nonneg x) (rnormSq_nonneg a)]
    simp [mul_self_eq_zero, ih]

theorem rnorm_eq_zero_iff (a : List ℝ) : rnorm a = 0 ↔ rnormSq a = 0 := by
  unfold rnorm
  rw [Real.sqrt_eq_zero']
  constructor
  · exact fun h => le_antisymm h (rnormSq_nonneg a)
  · exact fun h => le_of_eq h

theorem rnorm_create_feature_vector (d : FeatDict) :
    rnorm (create_feature_vector d) = 0 ∨ rnorm (create_feature_vector d) = 1 := by
  unfold create_feature_vector normalizeVec
  set w : List ℝ := (buildVector d).map (fun x : ℚ => (x : ℝ)) with hw
  by_cases h : 0 < rnorm w
  · right
    rw [if_pos h]
    have hsq : 0 < rnormSq w := by
      have := Real.sqrt_pos.mp (by simpa [rnorm] using h)
      exact this
    have : rnormSq (w.map (fun x => x / rnorm w)) = 1 := by
      rw [rnormSq_map_div]
      rw [show rnorm w * rnorm w = rnormSq w from
        Real.mul_self_sqrt (rnormSq_nonneg w)]
      exact div_self (ne_of_gt hsq)
    rw [rnorm, this, Real.sqrt_one]
  · left
    rw [if_neg h]
    have h0 : 0 ≤ rnorm w := Real.sqrt_nonneg _
    exact le_antisymm (not_lt.mp h) h0

/-- C1 (amended): `create_feature_vector` returns a vector of length
`6 + min(10, len(mfcc))` — six scalar slots plus the *truncated but never
padded* MFCC prefix; the length is `16` only when the record's `mfcc` list
has at least ten entries, and a record with no usable `mfcc` yields a
6-length vector. -/
theorem create_feature_vector_length (d : FeatDict) :
    (create_feature_vector d).length = 6 + min 10 (mfccLen d) :=
  create_feature_vector_length_aux d


/-- C1 counterexample: on a record whose `mfcc` list has three entries the
vector has length `9`, not `16` — `create_feature_vector` truncates the MFCC
list but never right-pads it. -/
theorem create_feature_vector_short_mfcc_not_padded :
    (create_feature_vector mfcc3Record).length = 9 ∧
    (create_feature_vector mfcc3Record).length ≠ 16 := by
  have h : (create_feature_vector mfcc3Record).length = 9 := by
    rw [create_feature_vector_length_aux]
    decide
  exact ⟨h, by rw [h]; decide⟩

/-- C10: every vector returned by `create_feature_vector` is L2-normalised —
its Euclidean norm is exactly `0` (precisely when every component is `0.0`)
or exactly `1`, because the built vector is divided by its norm whenever that
norm is positive. -/
theorem create_feature_vector_normalized (d : FeatDict) :
    (rnorm (create_feature_vector d) = 0 ∨ rnorm (create_feature_vector d) = 1) ∧
    (rnorm (create_feature_vector d) = 0 ↔
      ∀ x ∈ create_feature_vector d, x = 0) := by
  refine ⟨rnorm_create_feature_vector d, ?_⟩
  rw [rnorm_eq_zero_iff, rnormSq_eq_zero_iff]

/-! ## Cosine-similarity lemmas (C6) -/

theorem rdot_eq_sum (a : List ℝ) : ∀ b : List ℝ,
    rdot a b = ∑ i ∈ Finset.range (min a.length b.length),
      a.getD i 0 * b.getD i 0 := by
  induction a with
  | nil => intro b; simp [rdot_nil]
  | cons x a ih =>
    intro b
    cases b with
    | nil => simp [rdot]
    | cons y b =>
      rw [rdot_cons, ih b]
      have hmin : min (x :: a).length (y :: b).length =
          min a.length b.length + 1 := by
        simp [List.length_cons, Nat.succ_min_succ]
      rw [hmin, Finset.sum_range_succ']
      simp [List.getD_cons_succ, List.getD_cons_zero, add_comm]

theorem rnormSq_eq_sum (a : List ℝ) :
    rnormSq a = ∑ i ∈ Finset.range a.length, a.getD i 0 ^ 2 := by
  rw [rnormSq, rdot_eq_sum, min_self]
  exact Finset.sum_congr rfl (fun i _ => (sq (a.getD i 0)).symm)

theorem cauchy_schwarz_rdot (a b : List ℝ) :
    rdot a b ^ 2 ≤ rnormSq a * rnormSq b := by
  set n := min a.length b.length with hn
  have hcs := Finset.sum_mul_sq_le_sq_mul_sq (Finset.range n)
    (fun i => a.getD i 0) (fun i => b.getD i 0)
  have ha : ∑ i ∈ Finset.range n, a.getD i 0 ^ 2 ≤ rnormSq a := by
    rw [rnormSq_eq_sum]
    exact Finset.sum_le_sum_of_subset_of_nonneg
      (Finset.range_subset.mpr (Nat.min_le_left _ _))
      (fun i _ _ => sq_nonneg _)
  have hb : ∑ i ∈ Finset.range n, b.getD i 0 ^ 2 ≤ rnormSq b := by
    rw [rnormSq_eq_sum]
    exact Finset.sum_le_sum_of_subset_of_nonneg
      (Finset.range_subset.mpr (Nat.min_le_right _ _))
      (fun i _ _ => sq_nonneg _)
  calc rdot a b ^ 2
      = (∑ i ∈ Finset.range n, a.getD i 0 * b.getD i 0) ^ 2 := by
        rw [rdot_eq_sum]
    _ ≤ (∑ i ∈ Finset.range n, a.getD i 0 ^ 2) *
          ∑ i ∈ Finset.range n, b.getD i 0 ^ 2 := hcs
    _ ≤ rnormSq a * rnormSq b := by
        apply mul_le_mul ha hb (Finset.sum_nonneg (fun i _ => sq_nonneg _))
          (rnormSq_nonneg a)

/-- C6 (amended): the similarity score is the cosine
`dot(a,b) / (norm(a) * norm(b))` and lies in `[-1, 1]` for every pair of
vectors with non-zero norm; but when either vector has zero norm the source
performs no zero guard — the `0/0` float division inside `scipy`'s cosine
yields `nan` (modelled `none`), not `0`.  (The `similarity > 0`
filter then drops such candidates, since `nan > 0` is false.) -/
theorem scipy_cosine_sim_bounds :
    (∀ a b : List ℝ, rnormSq a ≠ 0 → rnormSq b ≠ 0 →
      scipy_cosine_sim a b =
        some (rdot a b / (Real.sqrt (rnormSq a) * Real.sqrt (rnormSq b))) ∧
      -1 ≤ rdot a b / (Real.sqrt (rnormSq a) * Real.sqrt (rnormSq b)) ∧
      rdot a b / (Real.sqrt (rnormSq a) * Real.sqrt (rnormSq b)) ≤ 1) ∧
    (∀ a b : List ℝ, rnormSq a = 0 ∨ rnormSq b = 0 →
      scipy_cosine_sim a b = none) := by
  constructor
  · intro a b ha hb
    have hA : 0 < rnormSq a := lt_of_le_of_ne (rnormSq_nonneg a) (Ne.symm ha)
    have hB : 0 < rnormSq b := lt_of_le_of_ne (rnormSq_nonneg b) (Ne.symm hb)
    have heq : scipy_cosine_sim a b =
        some (rdot a b / (Real.sqrt (rnormSq a) * Real.sqrt (rnormSq b))) := by
      unfold scipy_cosine_sim
      have hpos : 0 < rnormSq a * rnormSq b := mul_pos hA hB
      rw [if_neg hpos.ne']
    refine ⟨heq, ?_⟩
    set v := rdot a b / (Real.sqrt (rnormSq a) * Real.sqrt (rnormSq b)) with hv
    have habs : |v| ≤ 1 := by
      rw [abs_le_one_iff_mul_self_le_one]
      have hss : Real.sqrt (rnormSq a) * Real.sqrt (rnormSq b) *
          (Real.sqrt (rnormSq a) * Real.sqrt (rnormSq b)) =
          rnormSq a * rnormSq b := by
        rw [mul_mul_mul_comm, Real.mul_self_sqrt (rnormSq_nonneg a),
          Real.mul_self_sqrt (rnormSq_nonneg b)]
      rw [hv, div_mul_div_comm, hss]
      rw [div_le_one (by positivity)]
      have := cauchy_schwarz_rdot a b
      calc rdot a b * rdot a b = rdot a b ^ 2 := (sq (rdot a b)).symm
        _ ≤ rnormSq a * rnormSq b := this
    exact abs_le.mp habs
  · intro a b h
    unfold scipy_cosine_sim
    rw [if_pos]
    rcases h with h | h
    · rw [h, zero_mul]
    · rw [h, mul_zero]

/-- C6 witness: at the concrete non-zero pair `[1], [1]` the score equals the
cosine and obeys the bounds, and at the zero-norm pair `[1], [0]` the score
is the modelled `nan`. -/
theorem scipy_cosine_sim_bounds_witness :
    rnormSq [(1 : ℝ)] ≠ 0 ∧
    (scipy_cosine_sim [(1 : ℝ)] [(1 : ℝ)] =
      some (rdot [(1 : ℝ)] [(1 : ℝ)] /
        (Real.sqrt (rnormSq [(1 : ℝ)]) * Real.sqrt (rnormSq [(1 : ℝ)]))) ∧
      -1 ≤ rdot [(1 : ℝ)] [(1 : ℝ)] /
        (Real.sqrt (rnormSq [(1 : ℝ)]) * Real.sqrt (rnormSq [(1 : ℝ)])) ∧
      rdot [(1 : ℝ)] [(1 : ℝ)] /
        (Real.sqrt (rnormSq [(1 : ℝ)]) * Real.sqrt (rnormSq [(1 : ℝ)])) ≤ 1) ∧
    scipy_cosine_sim [(1 : ℝ)] [(0 : ℝ)] = none := by
  have h1 : rnormSq [(1 : ℝ)] ≠ 0 := by
    rw [rnormSq_cons, rnormSq_nil]; norm_num
  have h0 : rnormSq [(0 : ℝ)] = 0 := by
    rw [rnormSq_cons, rnormSq_nil]; norm_num
  exact ⟨h1, scipy_cosine_sim_bounds.1 _ _ h1 h1,
    scipy_cosine_sim_bounds.2 _ _ (Or.inr h0)⟩

/-- C6 counterexample: against the all-zero vector the similarity is *not*
`0` — the unguarded `scipy` division produces `nan` (modelled `none`), which
is only later discarded by the `similarity > 0` filter. -/
theorem scipy_cosine_sim_zero_norm_nan :
    scipy_cosine_sim [(1 : ℝ)] [(0 : ℝ)] = none ∧
    scipy_cosine_sim [(1 : ℝ)] [(0 : ℝ)] ≠ some 0 := by
  have h0 : rnormSq [(0 : ℝ)] = 0 := by
    rw [rnormSq_cons, rnormSq_nil]; norm_num
  have h : scipy_cosine_sim [(1 : ℝ)] [(0 : ℝ)] = none := by
    unfold scipy_cosine_sim
    rw [if_pos (by rw [h0, mul_zero])]
  exact ⟨h, by rw [h]; exact fun hc => Option.noConfusion hc⟩

/-! ## Filename classification (C8) -/

/-- C8: for `"kick_drum_punchy_120bpm.wav"` with no feature record involved,
`classify_by_filename` resolves the subtype to `"kick"` and the main type to
`"percussion"` (and the mood to the default `"neutral"`); the second conjunct
exhibits that a *later* table entry (`other_percussion`, via its keyword
`"drum"`) also matches the filename, so the earlier `kick` entry won purely
by table order — the first matching subtype in the ordered keyword table
wins. -/
theorem classify_by_filename_kick_percussion :
    classify_by_filename "kick_drum_punchy_120bpm.wav" =
      ⟨"percussion", "kick", "neutral"⟩ ∧
    (∃ kws, ("other_percussion", kws) ∈ CATEGORY_KEYWORDS ∧
      "drum" ∈ kws ∧
      pyIn "drum" (strLower (basename "kick_drum_punchy_120bpm.wav")) = true) := by
  constructor
  · decide
  · exact ⟨["perc", "drum", "percussion", "shaker", "tambourine", "conga", "bongo"],
      by decide, by decide, by decide⟩

/-! ## Mood precedence (C4) -/

theorem ite_nil_neutral_ne_nil (ml : List String) :
    (if ml = [] then ["neutral"] else ml) ≠ [] := by
  split
  · simp
  · assumption

theorem overall_mood_ne_nil (f : FeatDict) :
    (determine_mood_from_features f).overall_mood ≠ [] := by
  unfold determine_mood_from_features
  by_cases h : f = []
  · rw [if_pos h]
    simp
  · rw [if_neg h]
    exact ite_nil_neutral_ne_nil _

/-- When deep analysis runs and extraction returns a truthy (non-empty)
feature dict, `process_single_file` builds the sample with the *computed*
mood `overall_mood[0]`, whatever `classify_by_filename` said. -/
theorem process_single_file_deep_override (extract : String → Except String FeatDict)
    (fp : String) (bn fn : ℕ) (feats : FeatDict)
    (hx : extract fp = .ok feats) (hne : feats ≠ []) :
    process_single_file extract true fp bn fn =
      .success ⟨sample_id (basename fp), basename fp, fp,
        (classify_by_filename fp).type, (classify_by_filename fp).subtype,
        (determine_mood_from_features feats).overall_mood.headI, bn⟩ := by
  unfold process_single_file
  rw [if_pos rfl, hx]
  simp only [Except.map]
  rw [if_pos hne, if_pos (overall_mood_ne_nil feats)]

/-- Without deep analysis the filename-derived mood is kept. -/
theorem process_single_file_quick (extract : String → Except String FeatDict)
    (fp : String) (bn fn : ℕ) :
    process_single_file extract false fp bn fn =
      .success ⟨sample_id (basename fp), basename fp, fp,
        (classify_by_filename fp).type, (classify_by_filename fp).subtype,
        (classify_by_filename fp).mood, bn⟩ := by
  unfold process_single_file
  rw [if_neg (by simp)]


theorem fallbackBright_overall_mood :
    (determine_mood_from_features fallbackBrightFeatures).overall_mood =
      ["bright", "happy"] := by
  have hfb : dictGet fallbackBrightFeatures "extraction_method" =
      some (.str "basic_fallback") := rfl
  have e1 : getNum fallbackBrightFeatures "energy" (1/2) = 9/10 := rfl
  have e2 : getNum fallbackBrightFeatures "brightness" (1/2) = 9/10 := rfl
  have e3 : getNum fallbackBrightFeatures "roughness" (3/10) = 3/10 := rfl
  have hne : fallbackBrightFeatures ≠ [] := by decide
  unfold determine_mood_from_features
  rw [if_neg hne]
  simp only [hfb, e1, e2, e3]
  norm_num
  decide

/-- C4 counterexample: `"dark_pad.wav"` carries the mood keyword `"dark"`
(so the filename stage yields the non-neutral hint `"dark"`), deep analysis
succeeds with feature-derived mood `"bright"`, and the final per-sample mood
is the *computed* `"bright"` — the feature-derived mood overwrote the
filename hint, the opposite of the claimed precedence. -/
theorem filename_mood_hint_overridden :
    (classify_by_filename "dark_pad.wav").mood = "dark" ∧
    resultMood (process_single_file extractBright true "dark_pad.wav" 1 1) =
      some "bright" ∧
    ("bright" : String) ≠ "dark" := by
  refine ⟨by decide, ?_, by decide⟩
  rw [process_single_file_deep_override extractBright "dark_pad.wav" 1 1
    fallbackBrightFeatures rfl (by decide)]
  rw [resultMood, fallbackBright_overall_mood]
  rfl

/-- C4 (amended): whenever deep analysis runs and feature extraction returns
a truthy (non-empty) feature dict, the final mood is the *computed*
`overall_mood[0]` from `determine_mood_from_features`, regardless of any
filename-derived mood hint; the filename-derived mood survives only when
deep analysis is disabled (or the feature dict is empty / extraction
raised). -/
theorem process_single_file_mood_precedence :
    (∀ (extract : String → Except String FeatDict) (fp : String)
       (bn fn : ℕ) (feats : FeatDict),
      extract fp = .ok feats → feats ≠ [] →
      resultMood (process_single_file extract true fp bn fn) =
        some (determine_mood_from_features feats).overall_mood.headI) ∧
    (∀ (extract : String → Except String FeatDict) (fp : String) (bn fn : ℕ),
      resultMood (process_single_file extract false fp bn fn) =
        some (classify_by_filename fp).mood) := by
  constructor
  · intro extract fp bn fn feats hx hne
    rw [process_single_file_deep_override extract fp bn fn feats hx hne]
    rfl
  · intro extract fp bn fn
    rw [process_single_file_quick extract fp bn fn]
    rfl

/-- C4 witness: the amended rule applied at the concrete `"dark_pad.wav"`
run, whose computed mood is `"bright"`. -/
theorem process_single_file_mood_precedence_witness :
    extractBright "dark_pad.wav" = .ok fallbackBrightFeatures ∧
    fallbackBrightFeatures ≠ [] ∧
    resultMood (process_single_file extractBright true "dark_pad.wav" 1 1) =
      some (determine_mood_from_features fallbackBrightFeatures).overall_mood.headI :=
  ⟨rfl, by decide,
    process_single_file_mood_precedence.1 extractBright "dark_pad.wav" 1 1
      fallbackBrightFeatures rfl (by decide)⟩

/-! ## Progress counter lemmas (C9) -/

theorem update_processed (u : UpdateArgs) (d : ProgressData) :
    (_update_progress u d).processed_files =
      d.processed_files + (if 0 < u.increment then u.increment.toNat else 0) := by
  rcases u with ⟨inc, bn, msg, err⟩
  unfold _update_progress
  by_cases h : 0 < inc <;>
    cases bn <;> cases msg <;> cases err <;>
    simp [h] <;> split_ifs <;> rfl

/-- C9: the shared `processed_files` counter never decreases — neither under
a single `_update_progress` call nor across any sequence of calls — and the
`_update_progress` calls made by one `process_single_file` invocation
(success or failure alike) increment it by exactly `1`: each processed file
is counted exactly once. -/
theorem progress_processed_monotone_exactly_once :
    (∀ (u : UpdateArgs) (d : ProgressData),
      d.processed_files ≤ (_update_progress u d).processed_files) ∧
    (∀ (us : List UpdateArgs) (d : ProgressData),
      d.processed_files ≤ (applyProgressUpdates us d).processed_files) ∧
    (∀ (extract : String → Except String FeatDict) (deep : Bool) (fp : String)
       (d : ProgressData),
      (applyProgressUpdates (fileProgressUpdates extract deep fp) d).processed_files =
        d.processed_files + 1) := by
  have p1 : ∀ (u : UpdateArgs) (d : ProgressData),
      d.processed_files ≤ (_update_progress u d).processed_files := by
    intro u d
    rw [update_processed]
    exact Nat.le_add_right _ _
  have p2 : ∀ (us : List UpdateArgs) (d : ProgressData),
      d.processed_files ≤ (applyProgressUpdates us d).processed_files := by
    intro us
    induction us with
    | nil => intro d; exact le_refl _
    | cons u us ih =>
      intro d
      exact le_trans (p1 u d) (ih (_update_progress u d))
  refine ⟨p1, p2, ?_⟩
  intro extract deep fp d
  cases deep with
  | false =>
    simp [applyProgressUpdates, fileProgressUpdates, update_processed]
  | true =>
    cases hx : extract fp with
    | ok v =>
      simp [applyProgressUpdates, fileProgressUpdates, hx, update_processed]
    | error e =>
      simp [applyProgressUpdates, fileProgressUpdates, hx, update_processed]

/-! ## Batch scheduler lemmas (C2, C3, C7) -/

theorem batchResults_length (E : String → Except String FeatDict) (D : Bool)
    (bn : ℕ) : ∀ (i : ℕ) (l : List String),
    (batchResults E D bn i l).length = l.length := by
  intro i l
  induction l generalizing i with
  | nil => rfl
  | cons fp rest ih => simp [batchResults, ih]

theorem foldl_stepResult_samples (rs : List FileResult) : ∀ st : RunState,
    (rs.foldl stepResult st).samples.length + rs.countP isFailure =
      st.samples.length + rs.length := by
  induction rs with
  | nil => intro st; simp
  | cons r rs ih =>
    intro st
    cases r with
    | success s =>
      simp only [List.foldl_cons, stepResult, List.countP_cons, isFailure]
      have := ih { st with samples := st.samples ++ [s] }
      simp at this
      simp [this]
      omega
    | failure e =>
      simp only [List.foldl_cons, stepResult, List.countP_cons, isFailure]
      have := ih { st with errors := st.errors ++ [e], failed := st.failed + 1 }
      simp at this
      simp [this]
      omega

theorem foldl_stepResult_failed (rs : List FileResult) : ∀ st : RunState,
    (rs.foldl stepResult st).failed = st.failed + rs.countP isFailure := by
  induction rs with
  | nil => intro st; simp
  | cons r rs ih =>
    intro st
    cases r with
    | success s =>
      simp only [List.foldl_cons, stepResult, List.countP_cons, isFailure]
      simp [ih]
    | failure e =>
      simp only [List.foldl_cons, stepResult, List.countP_cons, isFailure]
      simp [ih]
      omega


theorem foldl_stepResult_errors (rs : List FileResult) : ∀ st : RunState,
    (rs.foldl stepResult st).errors = st.errors ++ rs.filterMap errOf := by
  induction rs with
  | nil => intro st; simp
  | cons r rs ih =>
    intro st
    cases r with
    | success s =>
      simp only [List.foldl_cons, stepResult, List.filterMap_cons, errOf]
      simp [ih]
    | failure e =>
      simp only [List.foldl_cons, stepResult, List.filterMap_cons, errOf]
      simp [ih]

theorem foldl_stepResult_processed (rs : List FileResult) : ∀ st : RunState,
    (rs.foldl stepResult st).processed = st.processed := by
  induction rs with
  | nil => intro st; rfl
  | cons r rs ih =>
    intro st
    cases r with
    | success s => simp only [List.foldl_cons, stepResult]; simp [ih]
    | failure e => simp only [List.foldl_cons, stepResult]; simp [ih]

theorem length_filterMap_errOf (rs : List FileResult) :
    (rs.filterMap errOf).length = rs.countP isFailure := by
  induction rs with
  | nil => rfl
  | cons r rs ih =>
    cases r with
    | success s => simp [List.filterMap_cons, errOf, List.countP_cons, isFailure, ih]
    | failure e => simp [List.filterMap_cons, errOf, List.countP_cons, isFailure, ih]

theorem processBatch_samples_failed (E : String → Except String FeatDict)
    (D : Bool) (bf : List String) (bn : ℕ) (st : RunState) :
    (processBatch E D bf bn st).samples.length + (processBatch E D bf bn st).failed =
      st.samples.length + st.failed + bf.length := by
  unfold processBatch
  have h1 := foldl_stepResult_samples (batchResults E D bn 1 bf) st
  have h2 := foldl_stepResult_failed (batchResults E D bn 1 bf) st
  have h3 := batchResults_length E D bn 1 bf
  simp only []
  omega

theorem processBatch_processed (E : String → Except String FeatDict)
    (D : Bool) (bf : List String) (bn : ℕ) (st : RunState) :
    (processBatch E D bf bn st).processed + st.samples.length =
      st.processed + (processBatch E D bf bn st).samples.length := by
  unfold processBatch
  have h1 := foldl_stepResult_samples (batchResults E D bn 1 bf) st
  have h3 := batchResults_length E D bn 1 bf
  have h4 := foldl_stepResult_processed (batchResults E D bn 1 bf) st
  have h5 : (batchResults E D bn 1 bf).countP isFailure ≤
      (batchResults E D bn 1 bf).length := List.countP_le_length _
  simp only []
  omega

theorem processBatch_failed_errors (E : String → Except String FeatDict)
    (D : Bool) (bf : List String) (bn : ℕ) (st : RunState) :
    (processBatch E D bf bn st).failed + st.errors.length =
      st.failed + (processBatch E D bf bn st).errors.length := by
  unfold processBatch
  have h2 := foldl_stepResult_failed (batchResults E D bn 1 bf) st
  have h6 := foldl_stepResult_errors (batchResults E D bn 1 bf) st
  have h7 := length_filterMap_errOf (batchResults E D bn 1 bf)
  simp only []
  rw [h2, h6]
  simp only [List.length_append, h7]
  omega

theorem processBatch_errors (E : String → Except String FeatDict)
    (D : Bool) (bf : List String) (bn : ℕ) (st : RunState) :
    (processBatch E D bf bn st).errors =
      st.errors ++ (batchResults E D bn 1 bf).filterMap errOf := by
  unfold processBatch
  simp only []
  rw [foldl_stepResult_errors]

theorem min_batch_arith (B N m : ℕ) :
    min B N + min (m * B) (N - B) = min ((m + 1) * B) N := by
  rw [Nat.succ_mul]
  rcases Nat.le_total B N with h | h
  · rcases Nat.le_total (m * B) (N - B) with h2 | h2
    · rw [Nat.min_eq_left h, Nat.min_eq_left h2, Nat.min_eq_left (by omega)]
      omega
    · rw [Nat.min_eq_left h, Nat.min_eq_right h2, Nat.min_eq_right (by omega)]
      omega
  · rw [Nat.min_eq_right h, Nat.sub_eq_zero_of_le h, Nat.min_eq_right (by omega),
      Nat.min_eq_right (by omega)]
    omega

theorem runBatchesRec_samples_failed (E : String → Except String FeatDict)
    (D : Bool) (B : ℕ) : ∀ (m bn : ℕ) (l : List String) (st : RunState),
    (runBatchesRec E D B m bn l st).samples.length +
        (runBatchesRec E D B m bn l st).failed =
      st.samples.length + st.failed + min (m * B) l.length := by
  intro m
  induction m with
  | zero => intro bn l st; simp [runBatchesRec]
  | succ m ih =>
    intro bn l st
    rw [runBatchesRec]
    rw [ih (bn + 1) (l.drop B) (processBatch E D (l.take B) bn st)]
    have hpb := processBatch_samples_failed E D (l.take B) bn st
    rw [List.length_drop]
    have htake : (l.take B).length = min B l.length := List.length_take B l
    rw [← min_batch_arith B l.length m]
    omega

theorem runBatchesRec_processed (E : String → Except String FeatDict)
    (D : Bool) (B : ℕ) : ∀ (m bn : ℕ) (l : List String) (st : RunState),
    (runBatchesRec E D B m bn l st).processed + st.samples.length =
      st.processed + (runBatchesRec E D B m bn l st).samples.length := by
  intro m
  induction m with
  | zero => intro bn l st; simp [runBatchesRec]
  | succ m ih =>
    intro bn l st
    rw [runBatchesRec]
    have h1 := ih (bn + 1) (l.drop B) (processBatch E D (l.take B) bn st)
    have h2 := processBatch_processed E D (l.take B) bn st
    omega

theorem runBatchesRec_failed_errors (E : String → Except String FeatDict)
    (D : Bool) (B : ℕ) : ∀ (m bn : ℕ) (l : List String) (st : RunState),
    (runBatchesRec E D B m bn l st).failed + st.errors.length =
      st.failed + (runBatchesRec E D B m bn l st).errors.length := by
  intro m
  induction m with
  | zero => intro bn l st; simp [runBatchesRec]
  | succ m ih =>
    intro bn l st
    rw [runBatchesRec]
    have h1 := ih (bn + 1) (l.drop B) (processBatch E D (l.take B) bn st)
    have h2 := processBatch_failed_errors E D (l.take B) bn st
    omega

theorem errOf_process_single_file (E : String → Except String FeatDict)
    (D : Bool) (fp : String) (bn i : ℕ) (e : ErrorRecord)
    (h : errOf (process_single_file E D fp bn i) = some e) :
    e.file_path = fp ∧ e.batch = bn ∧ e.file_num = i ∧
      E e.file_path = .error e.error := by
  unfold process_single_file at h
  cases D with
  | false => simp at h; exact absurd h (by simp [errOf])
  | true =>
    cases hE : E fp with
    | ok v =>
      rw [if_pos rfl, hE] at h
      simp [Except.map, errOf] at h
    | error msg =>
      rw [if_pos rfl, hE] at h
      simp [Except.map, errOf] at h
      rcases h with rfl
      exact ⟨rfl, rfl, rfl, by rw [hE]⟩

theorem batchResults_errors_mem (E : String → Except String FeatDict)
    (D : Bool) (bn : ℕ) : ∀ (bf : List String) (i : ℕ) (e : ErrorRecord),
    e ∈ (batchResults E D bn i bf).filterMap errOf →
    ∃ j, bf.get? j = some e.file_path ∧ e.batch = bn ∧ e.file_num = i + j ∧
      E e.file_path = .error e.error := by
  intro bf
  induction bf with
  | nil => intro i e h; simp [batchResults] at h
  | cons fp rest ih =>
    intro i e h
    rw [batchResults, List.filterMap_cons] at h
    rcases hcase : errOf (process_single_file E D fp bn i) with _ | e0
    · rw [hcase] at h
      rcases ih (i + 1) e h with ⟨j, hj, hb, hf, hE⟩
      exact ⟨j + 1, by simpa using hj, hb, by omega, hE⟩
    · rw [hcase] at h
      rcases List.mem_cons.mp h with rfl | h2
      · rcases errOf_process_single_file E D fp bn i e hcase with ⟨hp, hb, hf, hE⟩
        exact ⟨0, by simp [hp], hb, by omega, hE⟩
      · rcases ih (i + 1) e h2 with ⟨j, hj, hb, hf, hE⟩
        exact ⟨j + 1, by simpa using hj, hb, by omega, hE⟩

theorem runBatchesRec_errors_mem (E : String → Except String FeatDict)
    (D : Bool) (B : ℕ) : ∀ (m bn : ℕ) (l : List String) (st : RunState)
    (e : ErrorRecord), e ∈ (runBatchesRec E D B m bn l st).errors →
    e ∈ st.errors ∨
      (bn ≤ e.batch ∧ 1 ≤ e.file_num ∧
       l.get? ((e.batch - bn) * B + (e.file_num - 1)) = some e.file_path ∧
       E e.file_path = .error e.error) := by
  intro m
  induction m with
  | zero => intro bn l st e h; exact Or.inl h
  | succ m ih =>
    intro bn l st e h
    rw [runBatchesRec] at h
    rcases ih (bn + 1) (l.drop B) (processBatch E D (l.take B) bn st) e h with
      h1 | ⟨hbn, hfn, hget, hE⟩
    · rw [processBatch_errors] at h1
      rcases List.mem_append.mp h1 with h2 | h2
      · exact Or.inl h2
      · rcases batchResults_errors_mem E D bn (l.take B) 1 e h2 with
          ⟨j, hj, hb, hf, hE⟩
        refine Or.inr ⟨by omega, by omega, ?_, hE⟩
        have hjB : j < B := by
          have hlt : j < (l.take B).length := by
            by_contra hge
            rw [List.get?_eq_none.mpr (Nat.le_of_not_lt hge)] at hj
            exact Option.noConfusion hj
          have := List.length_take B l
          omega
        have hjl : l.get? j = some e.file_path := by
          rw [← List.get?_take hjB]
          exact hj
        rw [hb, hf]
        simpa using hjl
    · refine Or.inr ⟨by omega, hfn, ?_, hE⟩
      rw [List.get?_drop] at hget
      have harith : B + ((e.batch - (bn + 1)) * B + (e.file_num - 1)) =
          (e.batch - bn) * B + (e.file_num - 1) := by
        have hd : e.batch - bn = (e.batch - (bn + 1)) + 1 := by omega
        rw [hd, Nat.succ_mul]
        omega
      rw [harith] at hget
      exact hget

theorem ceil_mul_ge (N b : ℕ) (hb : 0 < b) : N ≤ ((N + b - 1) / b) * b := by
  set q := (N + b - 1) / b with hq
  have hdm := Nat.div_add_mod (N + b - 1) b
  have hmod := Nat.mod_lt (N + b - 1) hb
  rw [← hq] at hdm
  rw [Nat.mul_comm]
  set r := (N + b - 1) % b with hr
  generalize b * q = t at hdm ⊢
  omega

theorem pySlice_take_drop {α : Type _} (l : List α) (a B : ℕ) :
    pySlice l (a : ℤ) (min ((a : ℤ) + (B : ℤ)) (l.length : ℤ)) =
      (l.drop a).take B := by
  unfold pySlice pySliceIdx
  have hnn : ¬ ((a : ℤ) < 0) := by omega
  have hmincast : min ((a : ℤ) + (B : ℤ)) (l.length : ℤ) =
      ((min (a + B) l.length : ℕ) : ℤ) := by
    push_cast
    rfl
  have hnn2 : ¬ (min ((a : ℤ) + (B : ℤ)) (l.length : ℤ) < 0) := by
    rw [hmincast]; omega
  rw [if_neg hnn, if_neg hnn2, hmincast]
  simp only [Int.toNat_natCast]
  have hidx2 : min (min (a + B) l.length) l.length = min (a + B) l.length := by
    omega
  rw [hidx2]
  rcases Nat.le_total a l.length with h | h
  · rw [Nat.min_eq_left h]
    rw [List.take_eq_take]
    have hdl : (l.drop a).length = l.length - a := List.length_drop a l
    omega
  · have h1 : List.drop (min a l.length) l = [] := by
      rw [Nat.min_eq_right h]
      exact List.drop_eq_nil_of_le (le_refl _)
    have h2 : List.drop a l = [] := List.drop_eq_nil_of_le h
    rw [h1, h2]
    simp

theorem foldl_range_runRec (E : String → Except String FeatDict) (D : Bool)
    (b : ℕ) : ∀ (m bn : ℕ) (l : List String) (st : RunState),
    (List.range m).foldl
        (fun st k => processBatch E D ((l.drop (k * b)).take b) (bn + k) st) st =
      runBatchesRec E D b m bn l st := by
  intro m
  induction m with
  | zero => intro bn l st; rfl
  | succ m ih =>
    intro bn l st
    rw [List.range_succ_eq_map, List.foldl_cons, List.foldl_map]
    simp only [Nat.zero_mul, List.drop_zero, Nat.add_zero]
    have hbody : (fun (st : RunState) (k : ℕ) =>
        processBatch E D ((l.drop (Nat.succ k * b)).take b) (bn + Nat.succ k) st) =
        (fun (st : RunState) (k : ℕ) =>
          processBatch E D (((l.drop b).drop (k * b)).take b) ((bn + 1) + k) st) := by
      funext st k
      rw [List.drop_drop]
      have h1 : b + k * b = Nat.succ k * b := by rw [Nat.succ_mul]; omega
      rw [h1]
      have h2 : bn + Nat.succ k = (bn + 1) + k := by omega
      rw [h2]
    rw [hbody, ih (bn + 1) (l.drop b) (processBatch E D (l.take b) bn st)]
    rfl

theorem numB_eq (N : ℕ) (B : ℤ) (hB : 0 < B) :
    ((N : ℤ) + B - 1).fdiv B = (((N + B.toNat - 1) / B.toNat : ℕ) : ℤ) := by
  have hBc : (B.toNat : ℤ) = B := Int.toNat_of_nonneg hB.le
  have hb1 : 1 ≤ B.toNat := by omega
  rw [← hBc]
  rw [show (N : ℤ) + (B.toNat : ℤ) - 1 = ((N + B.toNat - 1 : ℕ) : ℤ) by
    push_cast [Nat.cast_sub (by omega : 1 ≤ N + B.toNat)]; ring]
  rw [Int.fdiv_eq_ediv _ (by positivity)]
  exact (Int.ofNat_ediv _ _).symm

theorem process_files_eq (E : String → Except String FeatDict) (D : Bool)
    (l : List String) (B mw : ℤ) (hB : 0 < B) (hmw : 0 < mw) (hl : ¬ l.isEmpty) :
    process_files E D l B mw = .ok ⟨true,
      (runBatchesRec E D B.toNat ((((l.length : ℤ) + B - 1).fdiv B).toNat) 1 l
        ⟨[], [], 0, 0⟩).samples,
      (runBatchesRec E D B.toNat ((((l.length : ℤ) + B - 1).fdiv B).toNat) 1 l
        ⟨[], [], 0, 0⟩).errors,
      ⟨l.length,
       (runBatchesRec E D B.toNat ((((l.length : ℤ) + B - 1).fdiv B).toNat) 1 l
         ⟨[], [], 0, 0⟩).processed,
       (runBatchesRec E D B.toNat ((((l.length : ℤ) + B - 1).fdiv B).toNat) 1 l
         ⟨[], [], 0, 0⟩).failed,
       B, mw, some (((l.length : ℤ) + B - 1).fdiv B)⟩⟩ := by
  unfold process_files
  rw [if_neg hl, if_neg (by omega : ¬ B = 0),
    if_neg (by intro hc; omega : ¬ (1 ≤ ((l.length : ℤ) + B - 1).fdiv B ∧ mw ≤ 0))]
  have hBc : (B.toNat : ℤ) = B := Int.toNat_of_nonneg hB.le
  have hbody : (fun (st : RunState) (k : ℕ) =>
      processBatch E D
        (pySlice l ((k : ℤ) * B) (min ((k : ℤ) * B + B) (l.length : ℤ)))
        (k + 1) st) =
      (fun (st : RunState) (k : ℕ) =>
        processBatch E D ((l.drop (k * B.toNat)).take B.toNat) (1 + k) st) := by
    funext st k
    have h1 : (k : ℤ) * B = ((k * B.toNat : ℕ) : ℤ) := by
      push_cast [hBc]; ring
    have h2 : min ((k : ℤ) * B + B) (l.length : ℤ) =
        min (((k * B.toNat : ℕ) : ℤ) + ((B.toNat : ℕ) : ℤ)) (l.length : ℤ) := by
      push_cast [hBc]; ring_nf
    rw [h2, h1, pySlice_take_drop]
    have h3 : k + 1 = 1 + k := by omega
    rw [h3]
  rw [hbody, foldl_range_runRec E D B.toNat _ 1 l ⟨[], [], 0, 0⟩]

theorem join_take_drop {α : Type _} (b : ℕ) :
    ∀ (m : ℕ) (l : List α), l.length ≤ m * b →
    ((List.range m).map (fun k => (l.drop (k * b)).take b)).join = l := by
  intro m
  induction m with
  | zero =>
    intro l hl
    simp at hl
    simp [hl]
  | succ m ih =>
    intro l hl
    have hjoin : ∀ (x : List α) (xs : List (List α)),
        (x :: xs).join = x ++ xs.join := fun _ _ => rfl
    rw [List.range_succ_eq_map, List.map_cons, hjoin, List.map_map]
    simp only [Nat.zero_mul, List.drop_zero, Function.comp_def]
    have hbody : (fun (k : ℕ) => (l.drop (Nat.succ k * b)).take b) =
        (fun (k : ℕ) => ((l.drop b).drop (k * b)).take b) := by
      funext k
      rw [List.drop_drop]
      have h1 : b + k * b = Nat.succ k * b := by rw [Nat.succ_mul]; omega
      rw [h1]
    rw [hbody, ih (l.drop b) (by
      have h1 := List.length_drop b l
      have h2 : (m + 1) * b = m * b + b := by ring
      rw [h2] at hl
      omega)]
    exact List.take_append_drop b l

theorem batchSlices_join (l : List String) (B : ℤ) (hB : 0 < B) :
    (batchSlices l B).join = l := by
  unfold batchSlices
  have hBc : (B.toNat : ℤ) = B := Int.toNat_of_nonneg hB.le
  have hbody : (fun (k : ℕ) =>
      pySlice l ((k : ℤ) * B) (min ((k : ℤ) * B + B) (l.length : ℤ))) =
      (fun (k : ℕ) => (l.drop (k * B.toNat)).take B.toNat) := by
    funext k
    have h1 : (k : ℤ) * B = ((k * B.toNat : ℕ) : ℤ) := by
      push_cast [hBc]; ring
    have h2 : min ((k : ℤ) * B + B) (l.length : ℤ) =
        min (((k * B.toNat : ℕ) : ℤ) + ((B.toNat : ℕ) : ℤ)) (l.length : ℤ) := by
      push_cast [hBc]; ring_nf
    rw [h2, h1, pySlice_take_drop]
  rw [hbody]
  apply join_take_drop
  rw [numB_eq l.length B hB, Int.toNat_natCast]
  exact ceil_mul_ge l.length B.toNat (by omega)

theorem batchSlices_length (l : List String) (B : ℤ) (hB : 0 < B) :
    (batchSlices l B).length = (l.length + B.toNat - 1) / B.toNat := by
  unfold batchSlices
  rw [List.length_map, List.length_range, numB_eq l.length B hB, Int.toNat_natCast]


theorem process_files_empty (extract : String → Except String FeatDict)
    (deep : Bool) (B mw : ℤ) :
    process_files extract deep ([] : List String) B mw =
      .ok ⟨true, [], [], ⟨0, 0, 0, B, mw, none⟩⟩ := rfl

theorem fdiv_toNat_eq (N : ℕ) (B : ℤ) (hB : 0 < B) :
    (((N : ℤ) + B - 1).fdiv B).toNat = (N + B.toNat - 1) / B.toNat := by
  rw [numB_eq N B hB, Int.toNat_natCast]

/-- C2 (amended): for every file list, positive `batch_size` and positive
`max_workers`, `process_files` completes with `ceil(N/B)` consecutive batch
slices that partition the input exactly; at completion
`failed_files + len(samples) = N` and `failed_files = len(errors)`, but the
returned `stats.processed_files` counts only *successful* files —
`processed_files + failed_files = N` (so it equals `N` exactly only when no
file failed). -/
theorem process_files_batch_accounting
    (extract : String → Except String FeatDict) (deep : Bool)
    (l : List String) (B mw : ℤ) (hB : 0 < B) (hmw : 0 < mw)
    (r : BatchResult) (hr : process_files extract deep l B mw = .ok r) :
    r.stats.failed_files + r.samples.length = l.length ∧
    r.stats.processed_files + r.stats.failed_files = l.length ∧
    r.stats.failed_files = r.errors.length ∧
    (batchSlices l B).join = l ∧
    (batchSlices l B).length = (l.length + B.toNat - 1) / B.toNat ∧
    (l ≠ [] → r.stats.num_batches =
      some (((l.length + B.toNat - 1) / B.toNat : ℕ) : ℤ)) := by
  have hb0 : 0 < B.toNat := by omega
  rcases eq_or_ne l [] with rfl | hne
  · rw [process_files_empty] at hr
    have hr' := (Except.ok.injEq _ _).mp hr
    subst hr'
    have hsl : batchSlices [] B = [] := by
      unfold batchSlices
      rw [show (([] : List String).length : ℤ) = ((0 : ℕ) : ℤ) from rfl,
        numB_eq 0 B hB, Int.toNat_natCast,
        show (0 + B.toNat - 1) / B.toNat = 0 from Nat.div_eq_of_lt (by omega)]
      rfl
    refine ⟨rfl, rfl, rfl, by rw [hsl]; rfl, ?_, fun h => absurd rfl h⟩
    rw [hsl, show (([] : List String).length + B.toNat - 1) / B.toNat = 0 from
      Nat.div_eq_of_lt (by simp only [List.length_nil]; omega)]
    rfl
  · rw [process_files_eq extract deep l B mw hB hmw
      (by simpa using hne)] at hr
    have hr' := (Except.ok.injEq _ _).mp hr
    subst hr'
    have hsf := runBatchesRec_samples_failed extract deep B.toNat
      ((((l.length : ℤ) + B - 1).fdiv B).toNat) 1 l ⟨[], [], 0, 0⟩
    have hpr := runBatchesRec_processed extract deep B.toNat
      ((((l.length : ℤ) + B - 1).fdiv B).toNat) 1 l ⟨[], [], 0, 0⟩
    have hfe := runBatchesRec_failed_errors extract deep B.toNat
      ((((l.length : ℤ) + B - 1).fdiv B).toNat) 1 l ⟨[], [], 0, 0⟩
    have hminN : min (((((l.length : ℤ) + B - 1).fdiv B).toNat) * B.toNat)
        l.length = l.length := by
      rw [fdiv_toNat_eq l.length B hB]
      have h1 := ceil_mul_ge l.length B.toNat hb0
      omega
    rw [hminN] at hsf
    have hz1 : ((⟨[], [], 0, 0⟩ : RunState).samples.length) = 0 := rfl
    have hz2 : ((⟨[], [], 0, 0⟩ : RunState).failed) = 0 := rfl
    have hz3 : ((⟨[], [], 0, 0⟩ : RunState).processed) = 0 := rfl
    have hz4 : ((⟨[], [], 0, 0⟩ : RunState).errors.length) = 0 := rfl
    rw [hz1, hz2] at hsf
    rw [hz3, hz1] at hpr
    rw [hz2, hz4] at hfe
    refine ⟨by dsimp only; omega, by dsimp only; omega, by dsimp only; omega,
      batchSlices_join l B hB, batchSlices_length l B hB, fun _ => ?_⟩
    dsimp only
    rw [numB_eq l.length B hB]

/-- C3: every exception raised while processing one file is caught at the
per-file boundary and recorded — each entry of the run's `errors` list
carries the failing file's path, its 1-based batch number, and its 1-based
index within that batch (the file at input position
`(batch-1)*batch_size + (file_num-1)`), together with the raised message —
and the failure stops nothing else: every one of the `N` input files still
ends up in exactly one of `samples` or `errors`
(`len(samples) + len(errors) = N`), and the run itself returns normally. -/
theorem process_files_error_isolation
    (extract : String → Except String FeatDict) (deep : Bool)
    (l : List String) (B mw : ℤ) (hB : 0 < B) (hmw : 0 < mw)
    (r : BatchResult) (hr : process_files extract deep l B mw = .ok r) :
    r.samples.length + r.errors.length = l.length ∧
    ∀ e ∈ r.errors, 1 ≤ e.batch ∧ 1 ≤ e.file_num ∧
      l.get? ((e.batch - 1) * B.toNat + (e.file_num - 1)) = some e.file_path ∧
      extract e.file_path = .error e.error := by
  have hb0 : 0 < B.toNat := by omega
  rcases eq_or_ne l [] with rfl | hne
  · rw [process_files_empty] at hr
    have hr' := (Except.ok.injEq _ _).mp hr
    subst hr'
    exact ⟨rfl, fun e he => absurd he (List.not_mem_nil e)⟩
  · rw [process_files_eq extract deep l B mw hB hmw
      (by simpa using hne)] at hr
    have hr' := (Except.ok.injEq _ _).mp hr
    subst hr'
    have hsf := runBatchesRec_samples_failed extract deep B.toNat
      ((((l.length : ℤ) + B - 1).fdiv B).toNat) 1 l ⟨[], [], 0, 0⟩
    have hfe := runBatchesRec_failed_errors extract deep B.toNat
      ((((l.length : ℤ) + B - 1).fdiv B).toNat) 1 l ⟨[], [], 0, 0⟩
    have hminN : min (((((l.length : ℤ) + B - 1).fdiv B).toNat) * B.toNat)
        l.length = l.length := by
      rw [fdiv_toNat_eq l.length B hB]
      have h1 := ceil_mul_ge l.length B.toNat hb0
      omega
    rw [hminN] at hsf
    have hz1 : ((⟨[], [], 0, 0⟩ : RunState).samples.length) = 0 := rfl
    have hz2 : ((⟨[], [], 0, 0⟩ : RunState).failed) = 0 := rfl
    have hz4 : ((⟨[], [], 0, 0⟩ : RunState).errors.length) = 0 := rfl
    rw [hz1, hz2] at hsf
    rw [hz2, hz4] at hfe
    constructor
    · dsimp only
      omega
    · intro e he
      dsimp only at he
      rcases runBatchesRec_errors_mem extract deep B.toNat
        ((((l.length : ℤ) + B - 1).fdiv B).toNat) 1 l ⟨[], [], 0, 0⟩
        e he with h0 | ⟨hbn, hfn, hget, hE⟩
      · exact absurd h0 (List.not_mem_nil e)
      · exact ⟨hbn, hfn, hget, hE⟩

/-- C3 witness: five files with an injected failure exactly at file 3 (the
first file of batch 2 when `batch_size = 2`) still yield 4 successful
samples and exactly the one expected error record — and the accounting and
error-location guarantees hold at this instance. -/
theorem process_files_error_isolation_witness :
    ∃ r, process_files extractFailF3 true files5 2 2 = .ok r ∧
      r.samples.length = 4 ∧
      r.errors = [⟨"f3.wav", "boom", 2, 1⟩] ∧
      (r.samples.length + r.errors.length = files5.length ∧
       ∀ e ∈ r.errors, 1 ≤ e.batch ∧ 1 ≤ e.file_num ∧
         files5.get? ((e.batch - 1) * (2 : ℤ).toNat + (e.file_num - 1)) =
           some e.file_path ∧
         extractFailF3 e.file_path = .error e.error) := by
  refine ⟨_, rfl, by decide, by decide,
    process_files_error_isolation extractFailF3 true files5 2 2
      (by decide) (by decide) _ rfl⟩

/-- C2 counterexample: a run over one file whose processing raises returns
`stats.processed_files = 0` while `total_files = 1` — the returned
`processed_files` stat does *not* equal `N` when failures occur. -/
theorem process_files_processed_undercounts :
    process_files extractFailAll true ["bad.wav"] 1 1 =
      .ok ⟨true, [], [⟨"bad.wav", "decode error", 1, 1⟩],
        ⟨1, 0, 1, 1, 1, some 1⟩⟩ ∧
    (0 : ℕ) ≠ 1 := ⟨rfl, by decide⟩

/-- C2 witness: the amended accounting applied to a concrete all-successful
three-file run with `batch_size = 2`. -/
theorem process_files_batch_accounting_witness :
    ∃ r, process_files extractEmpty true ["a.wav", "b.wav", "c.wav"] 2 2 = .ok r ∧
      (r.stats.failed_files + r.samples.length =
        (["a.wav", "b.wav", "c.wav"] : List String).length ∧
       r.stats.processed_files + r.stats.failed_files =
        (["a.wav", "b.wav", "c.wav"] : List String).length ∧
       r.stats.failed_files = r.errors.length ∧
       (batchSlices ["a.wav", "b.wav", "c.wav"] 2).join =
         ["a.wav", "b.wav", "c.wav"] ∧
       (batchSlices ["a.wav", "b.wav", "c.wav"] 2).length =
         ((["a.wav", "b.wav", "c.wav"] : List String).length +
           (2 : ℤ).toNat - 1) / (2 : ℤ).toNat ∧
       ((["a.wav", "b.wav", "c.wav"] : List String) ≠ [] →
        r.stats.num_batches =
          some ((((["a.wav", "b.wav", "c.wav"] : List String).length +
            (2 : ℤ).toNat - 1) / (2 : ℤ).toNat : ℕ) : ℤ))) := by
  refine ⟨_, rfl,
    process_files_batch_accounting extractEmpty true
      ["a.wav", "b.wav", "c.wav"] 2 2 (by decide) (by decide) _ rfl⟩

/-- C7 (code bug): `process_files` performs no configuration validation at
all.  With `batch_size = -1` the run completes *normally*, returning
`success: true` with zero files processed (Python's floor division makes one
empty slice `l[0:-1]`); with `batch_size = 0` it dies mid-function with an
unhandled `ZeroDivisionError` at the `num_batches` computation; with
`max_workers = 0` it dies with an unhandled `ValueError` only when the first
batch constructs its thread pool.  Nothing is rejected at job
construction. -/
theorem process_files_no_config_validation :
    process_files extractEmpty true ["a.wav"] (-1) 2 =
      .ok ⟨true, [], [], ⟨1, 0, 0, -1, 2, some 1⟩⟩ ∧
    process_files extractEmpty true ["a.wav"] 0 2 =
      .error "ZeroDivisionError: integer division or modulo by zero" ∧
    process_files extractEmpty true ["a.wav"] 3 0 =
      .error "ValueError: max_workers must be greater than 0" :=
  ⟨rfl, rfl, rfl⟩

/-! ## Similarity ranking lemmas (C5) -/

theorem scoreOne_pos (rp : String) (rv : List ℝ) (s : SampleFile)
    (e : SimilarEntry) (h : scoreOne rp rv s = some e) : 0 < e.similarity := by
  unfold scoreOne at h
  split at h
  · exact absurd h (by simp)
  · rcases hf : s.features with _ | f
    · rw [hf] at h; simp at h
    · rw [hf] at h
      dsimp only at h
      rcases hc : scipy_cosine_sim rv (create_feature_vector f) with _ | v
      · rw [hc] at h
        simp at h
      · rw [hc] at h
        dsimp only at h
        by_cases hv : 0 < v
        · rw [if_pos hv] at h
          have he := (Option.some.injEq _ _).mp h
          rw [← he]
          exact hv
        · rw [if_neg hv] at h
          exact absurd h (by simp)

theorem orderedInsert_filter_sim (x : SimilarEntry) (sv : ℝ) :
    ∀ t : List SimilarEntry,
    (List.orderedInsert simGE x t).filter (fun e => decide (e.similarity = sv)) =
      if x.similarity = sv
      then x :: t.filter (fun e => decide (e.similarity = sv))
      else t.filter (fun e => decide (e.similarity = sv)) := by
  intro t
  induction t with
  | nil =>
    by_cases hx : x.similarity = sv <;>
      simp [List.orderedInsert, List.filter_cons, hx]
  | cons y t ih =>
    rw [List.orderedInsert]
    by_cases hxy : simGE x y
    · rw [if_pos hxy]
      by_cases hx : x.similarity = sv <;>
        simp [List.filter_cons, hx]
    · rw [if_neg hxy]
      rw [List.filter_cons, ih, List.filter_cons]
      by_cases hy : y.similarity = sv
      · by_cases hx : x.similarity = sv
        · exfalso
          exact hxy (by unfold simGE; rw [hy, hx])
        · simp [hx, hy]
      · by_cases hx : x.similarity = sv <;> simp [hx, hy]

theorem insertionSort_filter_sim (sv : ℝ) : ∀ t : List SimilarEntry,
    (List.insertionSort simGE t).filter (fun e => decide (e.similarity = sv)) =
      t.filter (fun e => decide (e.similarity = sv)) := by
  intro t
  induction t with
  | nil => rfl
  | cons x t ih =>
    rw [List.insertionSort, orderedInsert_filter_sim, ih, List.filter_cons]
    by_cases hx : x.similarity = sv <;> simp [hx]

/-- C5: the ranked list returned by `find_similar_samples` contains only
candidates with strictly positive similarity, is sorted in descending order
of similarity, has length at most `max_results` (truncation happens after
sorting), and is stable: for every score value, the entries carrying that
score form a prefix of the equally-scored entries of the *pre-sort*
candidate list taken in input (enumeration) order. -/
theorem find_similar_samples_ranking (reference_path : String) (rf : FeatDict)
    (sample_files : List SampleFile) (max_results : ℕ) :
    (∀ e ∈ find_similar_samples reference_path (some rf) sample_files max_results,
      0 < e.similarity) ∧
    List.Sorted simGE
      (find_similar_samples reference_path (some rf) sample_files max_results) ∧
    (find_similar_samples reference_path (some rf) sample_files
      max_results).length ≤ max_results ∧
    (∀ sv : ℝ,
      (find_similar_samples reference_path (some rf) sample_files
          max_results).filter (fun e => decide (e.similarity = sv)) <+:
        (candidateScores reference_path rf sample_files).filter
          (fun e => decide (e.similarity = sv))) := by
  unfold find_similar_samples
  refine ⟨?_, ?_, ?_, ?_⟩
  · intro e he
    have h1 : e ∈ List.insertionSort simGE
        (candidateScores reference_path rf sample_files) :=
      List.mem_of_mem_take he
    have h2 : e ∈ candidateScores reference_path rf sample_files :=
      (List.perm_insertionSort simGE _).mem_iff.mp h1
    rcases List.mem_filterMap.mp h2 with ⟨s, _, hs⟩
    exact scoreOne_pos _ _ _ _ hs
  · exact List.Pairwise.sublist (List.take_sublist _ _)
      (List.sorted_insertionSort simGE _)
  · exact List.length_take_le _ _
  · intro sv
    have hpre := ( List.take_prefix max_results
      (List.insertionSort simGE
        (candidateScores reference_path rf sample_files))).filter
      (fun e => decide (e.similarity = sv))
    rw [insertionSort_filter_sim] at hpre
    exact hpre


/-- C5 witness: the ranking guarantees at a concrete reference and candidate
set with `max_results = 5`. -/
theorem find_similar_samples_ranking_witness :
    (∀ e ∈ find_similar_samples "ref.wav" (some refDictW) sampleFilesW 5,
      0 < e.similarity) ∧
    List.Sorted simGE (find_similar_samples "ref.wav" (some refDictW) sampleFilesW 5) ∧
    (find_similar_samples "ref.wav" (some refDictW) sampleFilesW 5).length ≤ 5 ∧
    (∀ sv : ℝ,
      (find_similar_samples "ref.wav" (some refDictW) sampleFilesW 5).filter
          (fun e => decide (e.similarity = sv)) <+:
        (candidateScores "ref.wav" refDictW sampleFilesW).filter
          (fun e => decide (e.similarity = sv))) :=
  find_similar_samples_ranking "ref.wav" refDictW sampleFilesW 5
